import Mathlib

/-!
# Verification of `gitlab_rss_mailer` against its specification

Shallow embedding of `src/gitlab_rss_mailer/__init__.py` and
`src/gitlab_rss_mailer/__main__.py`.

External collaborators (network feed retrieval via `feedparser`, the
filesystem, SMTP transport) are modelled as parameters and event traces:
`feedparser.parse(url)["entries"]` becomes an environment function
`env : String → List RawFeedEntry`, and side effects (the cache-file
write, the SMTP session, dry-run printing) become explicit events in a
trace, in the order the Python code performs them.

Python dictionaries (`feeds_cache`, the `result` mapping of `fetch_all`)
are modelled as association lists with first-match lookup and in-place
update, which matches Python dict insertion-order semantics.  A Python
crash (the `AttributeError` in `create_mail_text` when `get_feed_by_name`
returns `None`) is modelled by an `Option` result.
-/

set_option maxRecDepth 4000

namespace GitlabRssMailer

/-- A raw feed entry as returned by the feed parser: the four fields that
`FeedEntry.from_raw_feed_entry` reads (`id`, `title`, `author`, `link`). -/
structure RawFeedEntry where
  id : String
  title : String
  author : String
  link : String
deriving Repr, DecidableEq

/-- Class `FeedEntry` of `__init__.py`: immutable value with `id`,
`title`, `author`, `url`. -/
structure FeedEntry where
  id : String
  title : String
  author : String
  url : String
deriving Repr, DecidableEq

/-- Static method `FeedEntry.from_raw_feed_entry`: field extraction
(the raw `link` field becomes `url`). -/
def FeedEntry.from_raw_feed_entry (r : RawFeedEntry) : FeedEntry :=
  { id := r.id, title := r.title, author := r.author, url := r.link }

/-- Class `Feed` of `__init__.py`: name (cache key), display title, and
the list of source urls. -/
structure Feed where
  name : String
  title : String
  urls : List String
deriving Repr, DecidableEq

/-- The network environment: what `feedparser.parse(url)["entries"]`
returns for each url. -/
def FeedEnv : Type := String → List RawFeedEntry

/-- Method `Feed.fetch_raw`: iterate over the feed urls and extend one
entry list with the parsed entries of each url, in url order. -/
def Feed.fetch_raw (env : FeedEnv) (f : Feed) : List RawFeedEntry :=
  f.urls.foldl (fun entries url => entries ++ env url) []

/-- Loop body of `Feed.fetch`: for each raw entry in source order,
convert it and append it to the accumulator iff its id is not in
`known_ids` (Python `not entry.id in known_ids`, a membership test on the
plain Python list `known_ids`). -/
def Feed.fetchLoop (known_ids : List String) :
    List FeedEntry → List RawFeedEntry → List FeedEntry
  | entries, [] => entries
  | entries, raw :: rest =>
      let entry := FeedEntry.from_raw_feed_entry raw
      if known_ids.contains entry.id then
        Feed.fetchLoop known_ids entries rest
      else
        Feed.fetchLoop known_ids (entries ++ [entry]) rest

/-- Method `Feed.fetch`: filter the freshly fetched raw entries against
the known-id list, starting from an empty accumulator. -/
def Feed.fetch (env : FeedEnv) (f : Feed) (known_ids : List String) :
    List FeedEntry :=
  Feed.fetchLoop known_ids [] (Feed.fetch_raw env f)

/-- Cost model of CPython `x in known_ids` on a list: the number of
element comparisons performed — the list is scanned front to back until
the first match, or in full when there is no match. -/
def listMemberCost : List String → String → Nat
  | [], _ => 0
  | k :: rest, x => if k = x then 1 else 1 + listMemberCost rest x

/-- Total comparison cost of the membership tests `Feed.fetch` performs:
one scan of `known_ids` per fetched raw entry. -/
def fetchMembershipCost (known_ids : List String) (raws : List RawFeedEntry) : Nat :=
  (raws.map (fun raw => listMemberCost known_ids (FeedEntry.from_raw_feed_entry raw).id)).sum

/-! ## Python dict model

Both `self.feeds_cache : Dict[str, List[str]]` and the `result` dict of
`fetch_all` are association lists: lookup finds the first matching key,
assignment replaces the first matching entry in place or appends a fresh
one at the end (Python dict insertion-order behaviour). -/

/-- First-match lookup, Python `d[k]` / `d.get(k)` returning `None` when
the key is absent. -/
def dictGet? {α : Type} (k : String) : List (String × α) → Option α
  | [] => none
  | (k', v) :: rest => if k' = k then some v else dictGet? k rest

/-- Python `self.feeds_cache.get(feed.name, [])`: lookup with `[]` as the
default for an absent key. -/
def cacheGetD (c : List (String × List String)) (k : String) : List String :=
  (dictGet? k c).getD []

/-- Python `d[k] = v`: replace the first entry with key `k`, or append a
fresh one at the end. -/
def dictSet {α : Type} (k : String) (v : α) : List (String × α) → List (String × α)
  | [] => [(k, v)]
  | (k', v') :: rest =>
      if k' = k then (k, v) :: rest else (k', v') :: dictSet k v rest

/-- Class `MailConfig` of `__init__.py` (`smtp_port` is kept as the
configured string; `send_mails` converts it with `int(...)`). -/
structure MailConfig where
  smtp_host : String
  smtp_port : String
  smtp_protocol : String
  smtp_username : String
  smtp_password : String
  email_from : String
  email_to : String
deriving Repr, DecidableEq

/-- The state class `Runner` holds after `__init__`: the parsed mail
configuration, the configured feeds (in configuration order), and the
cache mapping loaded from the cache file. -/
structure Runner where
  mail_config : MailConfig
  feeds : List Feed
  feeds_cache : List (String × List String)

/-- Observable side effects of a run, in program order. -/
inductive RunEvent where
  | cacheWrite (cache : List (String × List String))
  | printReport (feed_name : String) (report : String)
  | smtpConnectSSL (host port : String)
  | smtpConnectPlain (host port : String)
  | smtpEhlo
  | smtpStarttls
  | smtpLogin (username password : String)
  | smtpSendmail (email_from email_to : String) (mail : String)
  | smtpQuit
deriving Repr, DecidableEq

/-- Loop body of `Runner.fetch_all`: per feed, read that feed's cached id
list (empty default), diff via `Feed.fetch`, record the result under the
feed name, and — only when not dry-run — append the new ids to the feed's
cache list and store it back. -/
def Runner.fetchAllLoop (env : FeedEnv) (dry_run : Bool) :
    List Feed → List (String × List FeedEntry) → List (String × List String) →
      List (String × List FeedEntry) × List (String × List String)
  | [], result, cache => (result, cache)
  | feed :: rest, result, cache =>
      let feed_cache := cacheGetD cache feed.name
      let entries := Feed.fetch env feed feed_cache
      let result' := dictSet feed.name entries result
      let cache' :=
        if dry_run then cache
        else dictSet feed.name (feed_cache ++ entries.map FeedEntry.id) cache
      Runner.fetchAllLoop env dry_run rest result' cache'

/-- Outcome of `Runner.fetch_all`: the returned result mapping, the final
in-memory cache mapping, and the file-system events performed. -/
structure FetchAllOutcome where
  result : List (String × List FeedEntry)
  cache : List (String × List String)
  events : List RunEvent
deriving Repr, DecidableEq

/-- Method `Runner.fetch_all`: run the per-feed loop starting from an
empty result dict, then — only when not dry-run — write the whole updated
cache mapping to the cache file in one snapshot write. -/
def Runner.fetch_all (env : FeedEnv) (feeds : List Feed)
    (feeds_cache : List (String × List String)) (dry_run : Bool) :
    FetchAllOutcome :=
  let out := Runner.fetchAllLoop env dry_run feeds [] feeds_cache
  { result := out.1, cache := out.2,
    events := if dry_run then [] else [RunEvent.cacheWrite out.2] }

/-- Method `Runner.get_feed_by_name`: first configured feed with the
given name, `None` when there is none. -/
def Runner.get_feed_by_name : List Feed → String → Option Feed
  | [], _ => none
  | feed :: rest, feed_name =>
      if feed.name = feed_name then some feed
      else Runner.get_feed_by_name rest feed_name

/-- One plain-text bullet line of `create_mail_text`. -/
def entryPlainLine (entry : FeedEntry) : String :=
  s!"- \"{entry.title}\" by {entry.author} ({entry.url})\n"

/-- One HTML list item line of `create_mail_text`. -/
def entryHtmlLine (entry : FeedEntry) : String :=
  s!"<li>\"<a href=\"{entry.url}\">{entry.title}</a>\" by {entry.author} ({entry.url})</li>\n"

/-- The composed message: subject and headers set by `create_mail_text`
plus the two attached bodies.  Serialization (`msg.as_string()`) is
library glue and is left abstract. -/
structure Mail where
  subject : String
  reply_to : String
  email_from : String
  email_to : String
  auto_submitted : String
  x_auto_response_suppress : String
  plain_text : String
  html_text : String
deriving Repr, DecidableEq

/-- Method `Runner.create_mail_text`: look the feed up by name and build
the message.  The Python code dereferences the lookup result
unconditionally (`feed.title`); a `None` lookup raises, modelled here by
`none`. -/
def Runner.create_mail_text (mail_config : MailConfig) (feeds : List Feed)
    (feed_name : String) (entries : List FeedEntry) : Option Mail :=
  match Runner.get_feed_by_name feeds feed_name with
  | none => none
  | some feed =>
      let plain_text := s!"New entries for feed {feed.title}\n"
        ++ String.join (entries.map entryPlainLine)
      let html_text :=
        "<!DOCTYPE html PUBLIC \"-//W3C//DTD XHTML 1.0 Transitional//EN\" \"http://www.w3.org/TR/xhtml1/DTD/xhtml1-transitional.dtd\">"
        ++ "<html xmlns=\"http://www.w3.org/1999/xhtml\" lang=\"en\" xml:lang=\"en\">\n<body>\n"
        ++ "<head>\n"
        ++ "<meta content=\"text/html; charset=UTF-8\" http-equiv=\"Content-Type\" />"
        ++ "</head>\n"
        ++ "<body>\n"
        ++ s!"<p>New entries for feed {feed.title}</p>\n"
        ++ "<ul>\n"
        ++ String.join (entries.map entryHtmlLine)
        ++ "</ul>\n"
        ++ "\n</body>\n</html>\n"
      some { subject := s!"[RSS Mailer] New entries for feed {feed.title}",
             reply_to := mail_config.email_from,
             email_from := mail_config.email_from,
             email_to := mail_config.email_to,
             auto_submitted := "auto-generated",
             x_auto_response_suppress := "All",
             plain_text := plain_text,
             html_text := html_text }

/-- Method `Runner.send_mails` as an SMTP event trace: early return on an
empty list (no connection); otherwise connect once (implicit SSL at
connect time when the protocol is `"ssl"`, plain otherwise), `ehlo`,
opportunistic `starttls` upgrade when the protocol is `"tls"`, one
`login`, one `sendmail` per message in list order over the same
connection, then `quit`.  The events carry the configured port string;
the code converts it with `int(...)` when connecting. -/
def Runner.send_mails (mail_config : MailConfig) (mails : List String) :
    List RunEvent :=
  if mails.length = 0 then []
  else
    let connect :=
      if mail_config.smtp_protocol = "ssl" then
        RunEvent.smtpConnectSSL mail_config.smtp_host mail_config.smtp_port
      else
        RunEvent.smtpConnectPlain mail_config.smtp_host mail_config.smtp_port
    let upgrade :=
      if mail_config.smtp_protocol = "tls" then [RunEvent.smtpStarttls] else []
    [connect, RunEvent.smtpEhlo] ++ upgrade
      ++ [RunEvent.smtpLogin mail_config.smtp_username mail_config.smtp_password]
      ++ mails.map (fun mail =>
          RunEvent.smtpSendmail mail_config.email_from mail_config.email_to mail)
      ++ [RunEvent.smtpQuit]

/-- Abstract serialization standing for `msg.as_string()` of the email
library: kept injective by reusing the plain body (what `send_mails`
hands to the transport is never inspected by the core logic). -/
def Mail.as_string (m : Mail) : String :=
  m.subject ++ "\n" ++ m.plain_text ++ m.html_text

/-- Recognizer for connection-opening SMTP events. -/
def RunEvent.isConnect : RunEvent → Bool
  | RunEvent.smtpConnectSSL _ _ => true
  | RunEvent.smtpConnectPlain _ _ => true
  | _ => false

/-- Recognizer for SMTP-session events. -/
def RunEvent.isSmtp : RunEvent → Bool
  | RunEvent.cacheWrite _ => false
  | RunEvent.printReport _ _ => false
  | _ => true

/-- The message delivered by a `sendmail` event, `none` for every other
event. -/
def RunEvent.sentMail : RunEvent → Option String
  | RunEvent.smtpSendmail _ _ mail => some mail
  | _ => none

/-- Loop of `main` over `new_entries.items()`: skip feeds whose new-entry
list is empty; compose the report for the rest; in dry-run mode print it,
otherwise collect it for sending.  A failing composition (unconfigured
feed name) aborts, modelling the Python crash. -/
def mainComposeLoop (mail_config : MailConfig) (feeds : List Feed) (dry_run : Bool) :
    List (String × List FeedEntry) → Option (List String × List RunEvent)
  | [] => some ([], [])
  | (feed_name, entries) :: rest =>
      if entries.length = 0 then
        mainComposeLoop mail_config feeds dry_run rest
      else
        match Runner.create_mail_text mail_config feeds feed_name entries with
        | none => none
        | some mail_report =>
            match mainComposeLoop mail_config feeds dry_run rest with
            | none => none
            | some (mail_reports, events) =>
                if dry_run then
                  some (mail_reports,
                    RunEvent.printReport feed_name mail_report.as_string :: events)
                else
                  some (mail_report.as_string :: mail_reports, events)

/-- Outcome of one whole run of `main`: the result mapping, the final
in-memory cache, and the ordered trace of observable events. -/
structure RunOutcome where
  result : List (String × List FeedEntry)
  cache : List (String × List String)
  trace : List RunEvent
deriving Repr, DecidableEq

/-- Function `main` of `__main__.py`: `fetch_all`, then compose a report
for every feed with new entries (printing instead of collecting in
dry-run mode), then `send_mails` on the collected reports.  `none`
models an unhandled exception. -/
def mainRun (env : FeedEnv) (runner : Runner) (dry_run : Bool) : Option RunOutcome :=
  let out := Runner.fetch_all env runner.feeds runner.feeds_cache dry_run
  match mainComposeLoop runner.mail_config runner.feeds dry_run out.result with
  | none => none
  | some (mail_reports, print_events) =>
      some { result := out.result, cache := out.cache,
             trace := out.events ++ print_events
               ++ Runner.send_mails runner.mail_config mail_reports }

/-! ## Concrete inputs used by the witnesses -/

/-- Concrete network environment: url `"u1"` serves ids 1, 2, 3 (matching
the end-to-end scenario of the spec), every other url serves nothing. -/
def envEx : FeedEnv := fun url =>
  if url = "u1" then
    [⟨"1", "t1", "a1", "l1"⟩, ⟨"2", "t2", "a2", "l2"⟩, ⟨"3", "t3", "a3", "l3"⟩]
  else []

/-- Concrete configured feed. -/
def feedEx : Feed := ⟨"issues", "Issues", ["u1"]⟩

/-- Concrete second feed, absent from the loaded cache and with no
entries at its url. -/
def feedEx2 : Feed := ⟨"merges", "Merge Requests", ["u2"]⟩

/-- Concrete loaded cache: feed `"issues"` has already seen ids 1 and 2. -/
def cacheEx : List (String × List String) := [("issues", ["1", "2"])]

/-- Concrete mail configuration. -/
def mailConfigEx : MailConfig :=
  ⟨"smtp.example.org", "587", "tls", "user", "pw", "rss@example.org", "dev@example.org"⟩

/-- Concrete runner state. -/
def runnerEx : Runner := ⟨mailConfigEx, [feedEx, feedEx2], cacheEx⟩

/-! ## Helper lemmas -/

theorem fetchLoop_eq_append_filter (known_ids : List String)
    (acc : List FeedEntry) (raws : List RawFeedEntry) :
    Feed.fetchLoop known_ids acc raws =
      acc ++ (raws.map FeedEntry.from_raw_feed_entry).filter
        (fun e => decide (e.id ∉ known_ids)) := by
  induction raws generalizing acc with
  | nil => simp [Feed.fetchLoop]
  | cons raw rest ih =>
      simp only [Feed.fetchLoop, List.map_cons, List.filter_cons]
      by_cases h : (FeedEntry.from_raw_feed_entry raw).id ∈ known_ids
      · have hc : known_ids.contains (FeedEntry.from_raw_feed_entry raw).id = true := by
          simpa [List.contains] using h
        simp [hc, ih, h]
      · have hc : known_ids.contains (FeedEntry.from_raw_feed_entry raw).id = false := by
          simpa [List.contains] using h
        simp [hc, ih, h]

theorem fetch_eq_filter (env : FeedEnv) (f : Feed) (known_ids : List String) :
    Feed.fetch env f known_ids =
      ((Feed.fetch_raw env f).map FeedEntry.from_raw_feed_entry).filter
        (fun e => decide (e.id ∉ known_ids)) := by
  simpa using fetchLoop_eq_append_filter known_ids [] (Feed.fetch_raw env f)

theorem fetch_empty_cache (env : FeedEnv) (f : Feed) :
    Feed.fetch env f [] = (Feed.fetch_raw env f).map FeedEntry.from_raw_feed_entry := by
  rw [fetch_eq_filter]
  simp

theorem listMemberCost_of_not_mem (known_ids : List String) (x : String)
    (h : x ∉ known_ids) : listMemberCost known_ids x = known_ids.length := by
  induction known_ids with
  | nil => simp [listMemberCost]
  | cons k rest ih =>
      have hk : ¬ k = x := fun e => h (e ▸ List.mem_cons_self k rest)
      have hrest : x ∉ rest := fun hr => h (List.mem_cons_of_mem k hr)
      simp [listMemberCost, hk, ih hrest]
      omega

theorem dictGet?_dictSet_self {α : Type} (k : String) (v : α)
    (d : List (String × α)) : dictGet? k (dictSet k v d) = some v := by
  induction d with
  | nil => simp [dictGet?, dictSet]
  | cons p rest ih =>
      obtain ⟨k', v'⟩ := p
      by_cases h : k' = k
      · simp [dictGet?, dictSet, h]
      · simp [dictGet?, dictSet, h, ih]

theorem dictGet?_dictSet_ne {α : Type} (k k₀ : String) (v : α)
    (d : List (String × α)) (h : k₀ ≠ k) :
    dictGet? k₀ (dictSet k v d) = dictGet? k₀ d := by
  have h' : ¬ k = k₀ := fun e => h e.symm
  induction d with
  | nil => simp [dictGet?, dictSet, h']
  | cons p rest ih =>
      obtain ⟨k', v'⟩ := p
      by_cases hk : k' = k
      · subst hk
        simp [dictGet?, dictSet, h']
      · by_cases hk₀ : k' = k₀ <;> simp [dictGet?, dictSet, hk, hk₀, h, ih]

theorem dictGet?_dictSet_isSome {α : Type} (k k₀ : String) (v : α)
    (d : List (String × α)) (h : (dictGet? k₀ d).isSome) :
    (dictGet? k₀ (dictSet k v d)).isSome := by
  by_cases hk : k₀ = k
  · subst hk; simp [dictGet?_dictSet_self]
  · rwa [dictGet?_dictSet_ne k k₀ v d hk]

theorem cacheGetD_dictSet_self (k : String) (v : List String)
    (c : List (String × List String)) : cacheGetD (dictSet k v c) k = v := by
  simp [cacheGetD, dictGet?_dictSet_self]

theorem cacheGetD_dictSet_ne (k k₀ : String) (v : List String)
    (c : List (String × List String)) (h : k₀ ≠ k) :
    cacheGetD (dictSet k v c) k₀ = cacheGetD c k₀ := by
  simp [cacheGetD, dictGet?_dictSet_ne k k₀ v c h]

theorem mem_dictSet {α : Type} (k : String) (v : α) (d : List (String × α))
    (p : String × α) (hp : p ∈ dictSet k v d) : p = (k, v) ∨ p ∈ d := by
  induction d with
  | nil => simpa [dictSet] using hp
  | cons q rest ih =>
      obtain ⟨k', v'⟩ := q
      by_cases h : k' = k
      · simp only [dictSet, if_pos h] at hp
        rcases List.mem_cons.mp hp with h1 | h2
        · exact Or.inl h1
        · exact Or.inr (List.mem_cons_of_mem _ h2)
      · simp only [dictSet, if_neg h] at hp
        rcases List.mem_cons.mp hp with h1 | h2
        · exact Or.inr (h1 ▸ List.mem_cons_self _ _)
        · rcases ih h2 with h3 | h4
          · exact Or.inl h3
          · exact Or.inr (List.mem_cons_of_mem _ h4)

theorem if_bool_true {α : Type} (a b : α) : (if true = true then a else b) = a := rfl

theorem if_bool_false {α : Type} (a b : α) : (if false = true then a else b) = b := rfl

theorem fetchAllLoop_dry_cache (env : FeedEnv) (feeds : List Feed)
    (res : List (String × List FeedEntry)) (cache : List (String × List String)) :
    (Runner.fetchAllLoop env true feeds res cache).2 = cache := by
  induction feeds generalizing res with
  | nil => rfl
  | cons g rest ih => simpa [Runner.fetchAllLoop] using ih _

theorem fetchAllLoop_result_key_mono (env : FeedEnv) (dry : Bool)
    (feeds : List Feed) (res : List (String × List FeedEntry))
    (cache : List (String × List String)) (k : String)
    (h : (dictGet? k res).isSome) :
    (dictGet? k (Runner.fetchAllLoop env dry feeds res cache).1).isSome := by
  induction feeds generalizing res cache with
  | nil => exact h
  | cons g rest ih =>
      simp only [Runner.fetchAllLoop]
      exact ih _ _ (dictGet?_dictSet_isSome _ k _ _ h)

theorem fetchAllLoop_result_isSome (env : FeedEnv) (dry : Bool)
    (feeds : List Feed) (res : List (String × List FeedEntry))
    (cache : List (String × List String)) (f : Feed) (hf : f ∈ feeds) :
    (dictGet? f.name (Runner.fetchAllLoop env dry feeds res cache).1).isSome := by
  induction feeds generalizing res cache with
  | nil => cases hf
  | cons g rest ih =>
      simp only [Runner.fetchAllLoop]
      rcases List.mem_cons.mp hf with h | h
      · subst h
        exact fetchAllLoop_result_key_mono env dry rest _ _ _
          (by rw [dictGet?_dictSet_self]; rfl)
      · exact ih _ _ h

theorem fetchAllLoop_result_frozen (env : FeedEnv) (dry : Bool)
    (feeds : List Feed) (res : List (String × List FeedEntry))
    (cache : List (String × List String)) (k : String)
    (hk : k ∉ feeds.map Feed.name) :
    dictGet? k (Runner.fetchAllLoop env dry feeds res cache).1 = dictGet? k res := by
  induction feeds generalizing res cache with
  | nil => rfl
  | cons g rest ih =>
      have hkg : k ≠ g.name := fun e => hk (by simp [e])
      have hkrest : k ∉ rest.map Feed.name := fun h => hk (by simp [h])
      simp only [Runner.fetchAllLoop]
      rw [ih _ _ hkrest, dictGet?_dictSet_ne _ _ _ _ hkg]

theorem fetchAllLoop_cache_frozen (env : FeedEnv) (dry : Bool)
    (feeds : List Feed) (res : List (String × List FeedEntry))
    (cache : List (String × List String)) (k : String)
    (hk : k ∉ feeds.map Feed.name) :
    dictGet? k (Runner.fetchAllLoop env dry feeds res cache).2 = dictGet? k cache := by
  induction feeds generalizing res cache with
  | nil => rfl
  | cons g rest ih =>
      have hkg : k ≠ g.name := fun e => hk (by simp [e])
      have hkrest : k ∉ rest.map Feed.name := fun h => hk (by simp [h])
      simp only [Runner.fetchAllLoop]
      rw [ih _ _ hkrest]
      cases dry with
      | true => rw [if_bool_true]
      | false => rw [if_bool_false, dictGet?_dictSet_ne _ _ _ _ hkg]

theorem fetchAllLoop_result_lookup (env : FeedEnv) (dry : Bool)
    (feeds : List Feed) (res : List (String × List FeedEntry))
    (cache : List (String × List String)) (f : Feed)
    (hnd : (feeds.map Feed.name).Nodup) (hf : f ∈ feeds) :
    dictGet? f.name (Runner.fetchAllLoop env dry feeds res cache).1 =
      some (Feed.fetch env f (cacheGetD cache f.name)) := by
  induction feeds generalizing res cache with
  | nil => cases hf
  | cons g rest ih =>
      rw [List.map_cons, List.nodup_cons] at hnd
      rcases List.mem_cons.mp hf with h | h
      · subst h
        simp only [Runner.fetchAllLoop]
        rw [fetchAllLoop_result_frozen env dry rest _ _ _ hnd.1,
          dictGet?_dictSet_self]
      · have hne : f.name ≠ g.name := by
          intro e
          exact hnd.1 (e ▸ List.mem_map_of_mem Feed.name h)
        simp only [Runner.fetchAllLoop]
        rw [ih _ _ hnd.2 h]
        cases dry with
        | true => rw [if_bool_true]
        | false => rw [if_bool_false, cacheGetD_dictSet_ne _ _ _ _ hne]

theorem fetchAllLoop_cache_lookup (env : FeedEnv)
    (feeds : List Feed) (res : List (String × List FeedEntry))
    (cache : List (String × List String)) (f : Feed)
    (hnd : (feeds.map Feed.name).Nodup) (hf : f ∈ feeds) :
    dictGet? f.name (Runner.fetchAllLoop env false feeds res cache).2 =
      some (cacheGetD cache f.name ++
        (Feed.fetch env f (cacheGetD cache f.name)).map FeedEntry.id) := by
  induction feeds generalizing res cache with
  | nil => cases hf
  | cons g rest ih =>
      rw [List.map_cons, List.nodup_cons] at hnd
      rcases List.mem_cons.mp hf with h | h
      · subst h
        simp only [Runner.fetchAllLoop]
        rw [fetchAllLoop_cache_frozen env false rest _ _ _ hnd.1, if_bool_false,
          dictGet?_dictSet_self]
      · have hne : f.name ≠ g.name := by
          intro e
          exact hnd.1 (e ▸ List.mem_map_of_mem Feed.name h)
        simp only [Runner.fetchAllLoop]
        rw [ih _ _ hnd.2 h, if_bool_false, cacheGetD_dictSet_ne _ _ _ _ hne]

theorem fetchAllLoop_result_congr (env : FeedEnv) (d₁ d₂ : Bool)
    (feeds : List Feed) (res : List (String × List FeedEntry))
    (c₁ c₂ : List (String × List String))
    (hnd : (feeds.map Feed.name).Nodup)
    (hagree : ∀ f ∈ feeds, cacheGetD c₁ f.name = cacheGetD c₂ f.name) :
    (Runner.fetchAllLoop env d₁ feeds res c₁).1 =
      (Runner.fetchAllLoop env d₂ feeds res c₂).1 := by
  induction feeds generalizing res c₁ c₂ with
  | nil => rfl
  | cons g rest ih =>
      rw [List.map_cons, List.nodup_cons] at hnd
      have hg : cacheGetD c₁ g.name = cacheGetD c₂ g.name :=
        hagree g (List.mem_cons_self _ _)
      simp only [Runner.fetchAllLoop, hg]
      apply ih _ _ _ hnd.2
      intro f hf
      have hne : f.name ≠ g.name := by
        intro e
        exact hnd.1 (e ▸ List.mem_map_of_mem Feed.name hf)
      have hstep : ∀ (d : Bool) (c : List (String × List String)) (v : List String),
          cacheGetD (if d then c else dictSet g.name v c) f.name = cacheGetD c f.name := by
        intro d c v
        cases d with
        | true => rfl
        | false => rw [if_bool_false, cacheGetD_dictSet_ne _ _ _ _ hne]
      rw [hstep, hstep]
      exact hagree f (List.mem_cons_of_mem _ hf)

theorem fetchAllLoop_cache_extends (env : FeedEnv) (dry : Bool)
    (feeds : List Feed) (res : List (String × List FeedEntry))
    (cache : List (String × List String)) (k : String) (x : String)
    (hx : x ∈ cacheGetD cache k) :
    x ∈ cacheGetD (Runner.fetchAllLoop env dry feeds res cache).2 k := by
  induction feeds generalizing res cache with
  | nil => exact hx
  | cons g rest ih =>
      simp only [Runner.fetchAllLoop]
      apply ih
      cases dry with
      | true =>
          rw [if_bool_true]
          exact hx
      | false =>
          rw [if_bool_false]
          by_cases hk : k = g.name
          · subst hk
            rw [cacheGetD_dictSet_self]
            exact List.mem_append_left _ hx
          · rw [cacheGetD_dictSet_ne _ _ _ _ hk]
            exact hx

theorem fetchAllLoop_recorded (env : FeedEnv)
    (feeds : List Feed) (res : List (String × List FeedEntry))
    (cache : List (String × List String))
    (hres : ∀ p ∈ res, ∀ e ∈ p.2, e.id ∈ cacheGetD cache p.1) :
    ∀ p ∈ (Runner.fetchAllLoop env false feeds res cache).1,
      ∀ e ∈ p.2, e.id ∈ cacheGetD (Runner.fetchAllLoop env false feeds res cache).2 p.1 := by
  induction feeds generalizing res cache with
  | nil => exact hres
  | cons g rest ih =>
      simp only [Runner.fetchAllLoop]
      apply ih
      rintro ⟨pn, pe⟩ hp e he
      rcases mem_dictSet _ _ _ _ hp with h | h
      · rw [Prod.mk.injEq] at h
        obtain ⟨h1, h2⟩ := h
        subst h1
        subst h2
        rw [if_bool_false, cacheGetD_dictSet_self]
        exact List.mem_append_right _ (List.mem_map_of_mem FeedEntry.id he)
      · have hbase := hres (pn, pe) h e he
        rw [if_bool_false]
        by_cases hk : pn = g.name
        · subst hk
          rw [cacheGetD_dictSet_self]
          exact List.mem_append_left _ hbase
        · rw [cacheGetD_dictSet_ne _ _ _ _ hk]
          exact hbase

theorem fetchAllLoop_result_keys (env : FeedEnv) (dry : Bool)
    (feeds : List Feed) (res : List (String × List FeedEntry))
    (cache : List (String × List String)) (p : String × List FeedEntry)
    (hp : p ∈ (Runner.fetchAllLoop env dry feeds res cache).1) :
    p.1 ∈ feeds.map Feed.name ∨ p ∈ res := by
  induction feeds generalizing res cache with
  | nil => exact Or.inr hp
  | cons g rest ih =>
      simp only [Runner.fetchAllLoop] at hp
      rcases ih _ _ hp with h | h
      · exact Or.inl (by simp [h])
      · rcases mem_dictSet _ _ _ _ h with h1 | h1
        · exact Or.inl (by simp [h1])
        · exact Or.inr h1

theorem get_feed_by_name_isSome (feeds : List Feed) (name : String)
    (h : name ∈ feeds.map Feed.name) :
    (Runner.get_feed_by_name feeds name).isSome := by
  induction feeds with
  | nil => simp at h
  | cons g rest ih =>
      rw [List.map_cons, List.mem_cons] at h
      by_cases hg : g.name = name
      · simp [Runner.get_feed_by_name, hg]
      · rcases h with h | h
        · exact absurd h.symm hg
        · simp only [Runner.get_feed_by_name, if_neg hg]
          exact ih h

theorem get_feed_by_name_none (feeds : List Feed) (name : String)
    (h : name ∉ feeds.map Feed.name) :
    Runner.get_feed_by_name feeds name = none := by
  induction feeds with
  | nil => rfl
  | cons g rest ih =>
      have hg : ¬ g.name = name := fun e => h (by simp [e])
      have hrest : name ∉ rest.map Feed.name := fun hr => h (by simp [hr])
      simp only [Runner.get_feed_by_name, if_neg hg]
      exact ih hrest

theorem create_mail_text_some_of_found (mail_config : MailConfig)
    (feeds : List Feed) (name : String) (entries : List FeedEntry)
    (h : (Runner.get_feed_by_name feeds name).isSome) :
    ∃ m, Runner.create_mail_text mail_config feeds name entries = some m := by
  rcases Option.isSome_iff_exists.mp h with ⟨feed, hfeed⟩
  simp only [Runner.create_mail_text, hfeed]
  exact ⟨_, rfl⟩

theorem mainComposeLoop_nondry_some (mail_config : MailConfig)
    (feeds : List Feed) (res : List (String × List FeedEntry))
    (h : ∀ p ∈ res, (Runner.get_feed_by_name feeds p.1).isSome) :
    ∃ reports, mainComposeLoop mail_config feeds false res = some (reports, []) := by
  induction res with
  | nil => exact ⟨[], rfl⟩
  | cons p rest ih =>
      obtain ⟨name, entries⟩ := p
      have hrest := ih (fun q hq => h q (List.mem_cons_of_mem _ hq))
      rcases hrest with ⟨reports, hreports⟩
      by_cases hz : entries.length = 0
      · exact ⟨reports, by simp [mainComposeLoop, hz, hreports]⟩
      · rcases create_mail_text_some_of_found mail_config feeds name entries
          (h _ (List.mem_cons_self _ _)) with ⟨m, hm⟩
        exact ⟨m.as_string :: reports, by
          simp [mainComposeLoop, hz, hm, hreports]⟩

/-! ## Claim C1 -/

/-- C1: the diff operation `Feed.fetch` returns exactly the fetched
entries whose id is not a member of the cached identifier list, in the
same relative order as fetched (it equals an order-preserving `filter` of
the converted raw entry list), with no sorting and no further
deduplication. -/
theorem fetch_returns_exactly_uncached (env : FeedEnv) (f : Feed)
    (known_ids : List String) :
    Feed.fetch env f known_ids =
      ((Feed.fetch_raw env f).map FeedEntry.from_raw_feed_entry).filter
        (fun e => decide (e.id ∉ known_ids)) :=
  fetch_eq_filter env f known_ids

/-! ## Claim C8 -/

/-- C8 counterexample: the membership test the diff performs is not O(1):
a miss against a 100-id cache costs 100 comparisons, and no constant
bounds `listMemberCost` over all cache sizes. -/
theorem membership_cost_not_constant :
    listMemberCost ((List.range 100).map (fun n => toString n)) "new" = 100 ∧
    ¬ ∃ bound : Nat, ∀ (known_ids : List String) (x : String),
        listMemberCost known_ids x ≤ bound := by
  constructor
  · decide
  · rintro ⟨bound, hb⟩
    have hmem : "b" ∉ List.replicate (bound + 1) "a" := by
      intro h
      exact absurd (List.eq_of_mem_replicate h) (by decide)
    have := hb (List.replicate (bound + 1) "a") "b"
    rw [listMemberCost_of_not_mem _ _ hmem, List.length_replicate] at this
    omega

/-- C8 as amended: the membership test scans the cached list linearly
(`Python in` on a list), so a diff in which every fetched entry is new
against a cache of m identifiers costs n·m comparisons. -/
theorem fetch_membership_cost_linear (known_ids : List String)
    (raws : List RawFeedEntry)
    (h : ∀ raw ∈ raws, (FeedEntry.from_raw_feed_entry raw).id ∉ known_ids) :
    fetchMembershipCost known_ids raws = raws.length * known_ids.length := by
  induction raws with
  | nil => simp [fetchMembershipCost]
  | cons raw rest ih =>
      have h1 : (FeedEntry.from_raw_feed_entry raw).id ∉ known_ids :=
        h raw (List.mem_cons_self _ _)
      have h2 : ∀ r ∈ rest, (FeedEntry.from_raw_feed_entry r).id ∉ known_ids :=
        fun r hr => h r (List.mem_cons_of_mem _ hr)
      simp only [fetchMembershipCost, List.map_cons, List.sum_cons] at *
      rw [listMemberCost_of_not_mem _ _ h1, ih h2, List.length_cons]
      ring

/-- Witness for the amended C8: two new entries against a cache of three
identifiers cost 2·3 comparisons. -/
theorem fetch_membership_cost_linear_witness :
    fetchMembershipCost ["1", "2", "3"]
      [⟨"4", "t4", "a4", "l4"⟩, ⟨"5", "t5", "a5", "l5"⟩] = 2 * 3 :=
  fetch_membership_cost_linear ["1", "2", "3"]
    [⟨"4", "t4", "a4", "l4"⟩, ⟨"5", "t5", "a5", "l5"⟩] (by decide)

/-! ## More helper lemmas: send_mails and mainRun -/

theorem send_mails_events_smtp (mail_config : MailConfig) (mails : List String) :
    ∀ e ∈ Runner.send_mails mail_config mails, e.isSmtp = true := by
  intro e he
  cases e with
  | cacheWrite c =>
      unfold Runner.send_mails at he
      by_cases hz : mails.length = 0
      · rw [if_pos hz] at he
        cases he
      · rw [if_neg hz] at he
        by_cases hssl : mail_config.smtp_protocol = "ssl" <;>
          by_cases htls : mail_config.smtp_protocol = "tls" <;>
            first
              | (rw [if_pos hssl, if_pos htls] at he; simp at he)
              | (rw [if_pos hssl, if_neg htls] at he; simp at he)
              | (rw [if_neg hssl, if_pos htls] at he; simp at he)
              | (rw [if_neg hssl, if_neg htls] at he; simp at he)
  | printReport n r =>
      unfold Runner.send_mails at he
      by_cases hz : mails.length = 0
      · rw [if_pos hz] at he
        cases he
      · rw [if_neg hz] at he
        by_cases hssl : mail_config.smtp_protocol = "ssl" <;>
          by_cases htls : mail_config.smtp_protocol = "tls" <;>
            first
              | (rw [if_pos hssl, if_pos htls] at he; simp at he)
              | (rw [if_pos hssl, if_neg htls] at he; simp at he)
              | (rw [if_neg hssl, if_pos htls] at he; simp at he)
              | (rw [if_neg hssl, if_neg htls] at he; simp at he)
  | smtpConnectSSL h p => rfl
  | smtpConnectPlain h p => rfl
  | smtpEhlo => rfl
  | smtpStarttls => rfl
  | smtpLogin u p => rfl
  | smtpSendmail a b m => rfl
  | smtpQuit => rfl

theorem filterMap_sentMail_sends (email_from email_to : String) (mails : List String) :
    (mails.map (fun m => RunEvent.smtpSendmail email_from email_to m)).filterMap
      RunEvent.sentMail = mails := by
  induction mails with
  | nil => rfl
  | cons m rest ih => simp [RunEvent.sentMail, ih]

theorem filterMap_sentMail_comp (email_from email_to : String) (mails : List String) :
    List.filterMap
      (RunEvent.sentMail ∘ fun m => RunEvent.smtpSendmail email_from email_to m)
      mails = mails := by
  induction mails with
  | nil => rfl
  | cons m rest ih => simp [RunEvent.sentMail, Function.comp, ih]

theorem countP_isConnect_sends (email_from email_to : String) (mails : List String) :
    (mails.map (fun m => RunEvent.smtpSendmail email_from email_to m)).countP
      RunEvent.isConnect = 0 := by
  induction mails with
  | nil => rfl
  | cons m rest ih => simp [List.countP_cons, RunEvent.isConnect, ih]

theorem mainRun_nondry (env : FeedEnv) (runner : Runner) (reports : List String)
    (hrep : mainComposeLoop runner.mail_config runner.feeds false
      (Runner.fetch_all env runner.feeds runner.feeds_cache false).result =
        some (reports, [])) :
    mainRun env runner false = some
      { result := (Runner.fetch_all env runner.feeds runner.feeds_cache false).result,
        cache := (Runner.fetch_all env runner.feeds runner.feeds_cache false).cache,
        trace := RunEvent.cacheWrite
            (Runner.fetch_all env runner.feeds runner.feeds_cache false).cache ::
          Runner.send_mails runner.mail_config reports } := by
  have hev : (Runner.fetch_all env runner.feeds runner.feeds_cache false).events =
      [RunEvent.cacheWrite (Runner.fetch_all env runner.feeds runner.feeds_cache false).cache] :=
    rfl
  simp only [mainRun, hrep]
  rw [hev]
  simp

/-! ## Claim C2 -/

/-- C2: in a non-dry run, the single cache-file write is the very first
observable event of the whole run and every following event belongs to
the SMTP session, so mail transport can only fail after the updated
cache — which already records the id of every newly discovered entry of
every feed — has been persisted. -/
theorem cache_write_precedes_all_sends (env : FeedEnv) (runner : Runner) :
    ∃ (out : RunOutcome) (mail_reports : List String),
      mainRun env runner false = some out ∧
      out.trace = RunEvent.cacheWrite out.cache ::
        Runner.send_mails runner.mail_config mail_reports ∧
      (∀ e ∈ Runner.send_mails runner.mail_config mail_reports, e.isSmtp = true) ∧
      (∀ p ∈ out.result, ∀ entry ∈ p.2, entry.id ∈ cacheGetD out.cache p.1) := by
  have hkeys : ∀ p ∈ (Runner.fetch_all env runner.feeds runner.feeds_cache false).result,
      (Runner.get_feed_by_name runner.feeds p.1).isSome := by
    intro p hp
    rcases fetchAllLoop_result_keys env false runner.feeds [] runner.feeds_cache p hp
      with h | h
    · exact get_feed_by_name_isSome _ _ h
    · cases h
  rcases mainComposeLoop_nondry_some runner.mail_config runner.feeds _ hkeys
    with ⟨reports, hrep⟩
  refine ⟨_, reports, mainRun_nondry env runner reports hrep, rfl,
    send_mails_events_smtp runner.mail_config reports, ?_⟩
  exact fetchAllLoop_recorded env runner.feeds [] runner.feeds_cache
    (by intro p hp; cases hp)

/-- Witness for C2 at a concrete environment and runner. -/
theorem cache_write_precedes_all_sends_witness :
    ∃ (out : RunOutcome) (mail_reports : List String),
      mainRun envEx runnerEx false = some out ∧
      out.trace = RunEvent.cacheWrite out.cache ::
        Runner.send_mails runnerEx.mail_config mail_reports ∧
      (∀ e ∈ Runner.send_mails runnerEx.mail_config mail_reports, e.isSmtp = true) ∧
      (∀ p ∈ out.result, ∀ entry ∈ p.2, entry.id ∈ cacheGetD out.cache p.1) :=
  cache_write_precedes_all_sends envEx runnerEx

/-! ## Claim C3 -/

/-- C3: a dry run computes exactly the result mapping a non-dry run
would, leaves the in-memory cache mapping equal to its pre-run value,
and performs no cache-file write (no events at all). -/
theorem fetch_all_dry_run_frame (env : FeedEnv) (feeds : List Feed)
    (cache : List (String × List String))
    (hnd : (feeds.map Feed.name).Nodup) :
    (Runner.fetch_all env feeds cache true).result =
      (Runner.fetch_all env feeds cache false).result ∧
    (Runner.fetch_all env feeds cache true).cache = cache ∧
    (Runner.fetch_all env feeds cache true).events = [] := by
  refine ⟨?_, ?_, rfl⟩
  · exact fetchAllLoop_result_congr env true false feeds [] cache cache hnd
      (fun f _ => rfl)
  · exact fetchAllLoop_dry_cache env feeds [] cache

/-- Witness for C3: two configured feeds over the concrete cache. -/
theorem fetch_all_dry_run_frame_witness :
    (Runner.fetch_all envEx [feedEx, feedEx2] cacheEx true).result =
      (Runner.fetch_all envEx [feedEx, feedEx2] cacheEx false).result ∧
    (Runner.fetch_all envEx [feedEx, feedEx2] cacheEx true).cache = cacheEx ∧
    (Runner.fetch_all envEx [feedEx, feedEx2] cacheEx true).events = [] :=
  fetch_all_dry_run_frame envEx [feedEx, feedEx2] cacheEx (by decide)

/-! ## Claim C4 -/

/-- C4: after a non-dry run the cache list of every configured feed is
its pre-run list with the ids of the newly discovered entries appended
at the end in discovery order — in particular every previously cached
identifier stays at its original position and nothing is removed. -/
theorem fetch_all_cache_appends_new_ids (env : FeedEnv) (feeds : List Feed)
    (cache : List (String × List String)) (f : Feed)
    (hnd : (feeds.map Feed.name).Nodup) (hf : f ∈ feeds) :
    dictGet? f.name (Runner.fetch_all env feeds cache false).cache =
      some (cacheGetD cache f.name ++
        (Feed.fetch env f (cacheGetD cache f.name)).map FeedEntry.id) :=
  fetchAllLoop_cache_lookup env feeds [] cache f hnd hf

/-- Witness for C4: feed `"issues"` with cache `["1", "2"]` and fetched
ids 1, 2, 3 ends with cache `["1", "2"] ++ ["3"]`. -/
theorem fetch_all_cache_appends_new_ids_witness :
    dictGet? feedEx.name (Runner.fetch_all envEx [feedEx, feedEx2] cacheEx false).cache =
      some (cacheGetD cacheEx feedEx.name ++
        (Feed.fetch envEx feedEx (cacheGetD cacheEx feedEx.name)).map FeedEntry.id) :=
  fetch_all_cache_appends_new_ids envEx [feedEx, feedEx2] cacheEx feedEx
    (by decide) (List.mem_cons_self _ _)

/-! ## Claim C5 -/

/-- C5: a configured feed whose name has no key in the loaded cache is
diffed against the empty list, so its every fetched entry is reported as
new (and the run does not fail: the model is total). -/
theorem fetch_all_unknown_feed_all_new (env : FeedEnv) (feeds : List Feed)
    (cache : List (String × List String)) (dry : Bool) (f : Feed)
    (hnd : (feeds.map Feed.name).Nodup) (hf : f ∈ feeds)
    (habs : dictGet? f.name cache = none) :
    dictGet? f.name (Runner.fetch_all env feeds cache dry).result =
      some ((Feed.fetch_raw env f).map FeedEntry.from_raw_feed_entry) := by
  have h := fetchAllLoop_result_lookup env dry feeds [] cache f hnd hf
  have hget : cacheGetD cache f.name = [] := by simp [cacheGetD, habs]
  rw [hget, fetch_empty_cache] at h
  exact h

/-- Witness for C5: feed `"merges"` is absent from the loaded cache. -/
theorem fetch_all_unknown_feed_all_new_witness :
    dictGet? feedEx2.name (Runner.fetch_all envEx [feedEx, feedEx2] cacheEx false).result =
      some ((Feed.fetch_raw envEx feedEx2).map FeedEntry.from_raw_feed_entry) :=
  fetch_all_unknown_feed_all_new envEx [feedEx, feedEx2] cacheEx false feedEx2
    (by decide) (by decide) (by decide)

/-! ## Claim C6 -/

/-- C6: the result mapping of `fetch_all` has an entry for every
configured feed, dry run or not, including feeds with no new entries. -/
theorem fetch_all_result_covers_all_feeds (env : FeedEnv) (feeds : List Feed)
    (cache : List (String × List String)) (dry : Bool) (f : Feed)
    (hf : f ∈ feeds) :
    (dictGet? f.name (Runner.fetch_all env feeds cache dry).result).isSome :=
  fetchAllLoop_result_isSome env dry feeds [] cache f hf

/-- Witness for C6: feed `"issues"` has a result entry. -/
theorem fetch_all_result_covers_all_feeds_witness :
    (dictGet? feedEx.name (Runner.fetch_all envEx [feedEx, feedEx2] cacheEx false).result).isSome :=
  fetch_all_result_covers_all_feeds envEx [feedEx, feedEx2] cacheEx false feedEx
    (List.mem_cons_self _ _)

/-! ## Claim C7 -/

/-- C7: called on an empty message list, `send_mails` performs no events
at all (in particular it opens no connection); on a non-empty list it
opens exactly one connection, the connection is the first event, and the
messages delivered over it are exactly the input list in order. -/
theorem send_mails_one_connection (mail_config : MailConfig) (mails : List String)
    (hne : mails ≠ []) :
    Runner.send_mails mail_config ([] : List String) = [] ∧
    (Runner.send_mails mail_config mails).countP RunEvent.isConnect = 1 ∧
    (∃ hd, (Runner.send_mails mail_config mails).head? = some hd ∧
      hd.isConnect = true) ∧
    (Runner.send_mails mail_config mails).filterMap RunEvent.sentMail = mails := by
  have hz : ¬ mails.length = 0 := by
    intro h
    exact hne (List.length_eq_zero.mp h)
  refine ⟨rfl, ?_, ?_, ?_⟩
  · unfold Runner.send_mails
    rw [if_neg hz]
    by_cases hssl : mail_config.smtp_protocol = "ssl" <;>
      by_cases htls : mail_config.smtp_protocol = "tls" <;>
        simp [hssl, htls, List.countP_append, List.countP_cons,
          RunEvent.isConnect, countP_isConnect_sends]
  · unfold Runner.send_mails
    rw [if_neg hz]
    by_cases hssl : mail_config.smtp_protocol = "ssl" <;>
      simp [hssl, RunEvent.isConnect]
  · unfold Runner.send_mails
    rw [if_neg hz]
    by_cases hssl : mail_config.smtp_protocol = "ssl" <;>
      by_cases htls : mail_config.smtp_protocol = "tls" <;>
        simp [hssl, htls, List.filterMap_append, RunEvent.sentMail,
          filterMap_sentMail_sends, filterMap_sentMail_comp]

/-- Witness for C7: one message over the concrete tls configuration. -/
theorem send_mails_one_connection_witness :
    Runner.send_mails mailConfigEx ([] : List String) = [] ∧
    (Runner.send_mails mailConfigEx ["report"]).countP RunEvent.isConnect = 1 ∧
    (∃ hd, (Runner.send_mails mailConfigEx ["report"]).head? = some hd ∧
      hd.isConnect = true) ∧
    (Runner.send_mails mailConfigEx ["report"]).filterMap RunEvent.sentMail = ["report"] :=
  send_mails_one_connection mailConfigEx ["report"] (by decide)

/-! ## Claim C9 -/

/-- C9: for a feed name that is not among the configured feeds,
`get_feed_by_name` returns `None`, and `create_mail_text` — which
dereferences that result unconditionally — fails instead of producing a
message. -/
theorem create_mail_text_unconfigured_fails (mail_config : MailConfig)
    (feeds : List Feed) (feed_name : String) (entries : List FeedEntry)
    (h : feed_name ∉ feeds.map Feed.name) :
    Runner.get_feed_by_name feeds feed_name = none ∧
    Runner.create_mail_text mail_config feeds feed_name entries = none := by
  have h1 := get_feed_by_name_none feeds feed_name h
  exact ⟨h1, by simp [Runner.create_mail_text, h1]⟩

/-- Witness for C9: the name `"unknown"` is not configured. -/
theorem create_mail_text_unconfigured_fails_witness :
    Runner.get_feed_by_name [feedEx, feedEx2] "unknown" = none ∧
    Runner.create_mail_text mailConfigEx [feedEx, feedEx2] "unknown" [] = none :=
  create_mail_text_unconfigured_fails mailConfigEx [feedEx, feedEx2] "unknown" []
    (by decide)

/-! ## Claim C10 -/

/-- C10: after a non-dry run the cache mapping — both in memory and as
written in the single snapshot event — has a key for every configured
feed; a feed absent from the loaded cache with no new entries is
recorded with the empty identifier list. -/
theorem fetch_all_cache_covers_all_feeds (env : FeedEnv) (feeds : List Feed)
    (cache : List (String × List String)) (f : Feed)
    (hnd : (feeds.map Feed.name).Nodup) (hf : f ∈ feeds) :
    (dictGet? f.name (Runner.fetch_all env feeds cache false).cache).isSome ∧
    (Runner.fetch_all env feeds cache false).events =
      [RunEvent.cacheWrite (Runner.fetch_all env feeds cache false).cache] ∧
    (dictGet? f.name cache = none → Feed.fetch env f [] = [] →
      dictGet? f.name (Runner.fetch_all env feeds cache false).cache = some []) := by
  have h := fetchAllLoop_cache_lookup env feeds [] cache f hnd hf
  refine ⟨?_, rfl, ?_⟩
  · rw [show (Runner.fetch_all env feeds cache false).cache =
      (Runner.fetchAllLoop env false feeds [] cache).2 from rfl, h]
    rfl
  · intro habs hempty
    have hget : cacheGetD cache f.name = [] := by simp [cacheGetD, habs]
    rw [show (Runner.fetch_all env feeds cache false).cache =
      (Runner.fetchAllLoop env false feeds [] cache).2 from rfl, h, hget, hempty]
    rfl

/-- Witness for C10: feed `"merges"` is absent from the loaded cache and
has no entries at its url, and ends recorded with `some []`. -/
theorem fetch_all_cache_covers_all_feeds_witness :
    (dictGet? feedEx2.name (Runner.fetch_all envEx [feedEx, feedEx2] cacheEx false).cache).isSome ∧
    (Runner.fetch_all envEx [feedEx, feedEx2] cacheEx false).events =
      [RunEvent.cacheWrite (Runner.fetch_all envEx [feedEx, feedEx2] cacheEx false).cache] ∧
    dictGet? feedEx2.name (Runner.fetch_all envEx [feedEx, feedEx2] cacheEx false).cache = some [] := by
  have h := fetch_all_cache_covers_all_feeds envEx [feedEx, feedEx2] cacheEx feedEx2
    (by decide) (by decide)
  exact ⟨h.1, h.2.1, h.2.2 (by decide) (by decide)⟩

end GitlabRssMailer
